import Mathlib

/-!
Shallow embedding of the KiwoomData vector core
(`src/kiwoomdata/vector/sliding_window.py` and
`src/kiwoomdata/vector/embedding.py`) together with theorems settling the
behavioural claims about window extraction, PCA training/loading, raw-vector
embedding, normalized insertion and cosine-similarity search.

Modelling conventions:
* a Polars DataFrame with a `timestamp` column is modelled by its list of
  timestamps (`List ℤ`, milliseconds), which is all the extractor inspects;
* Python `int` is `ℤ`; Python `//` (floor division) is `Int.fdiv`;
* Python floats in raw vectors are modelled by `FVal` (a rational payload plus
  the IEEE non-finite values `nan`, `inf`, `ninf`) where only the NaN/Inf
  structure matters, and by `ℝ` where arithmetic (norm, dot product) matters;
* a Python function that can raise is modelled as returning `Except`;
* CPython `range(start, stop, step)`, iterated to a list, is `pyRange`.
-/

/-! ### Sliding window extractor (`sliding_window.py`) -/

/-- Runtime errors raised by the Python interpreter / libraries while the
extractor iterates: `valueError` from `range` with step 0, `indexError` from
indexing an empty window slice. -/
inductive PyErr where
  | valueError
  | indexError
deriving DecidableEq, Repr

/-- Mirror of the frozen dataclass `WindowConfig` (sliding_window.py lines
23-54). It performs no validation: any field values are accepted. -/
structure WindowConfig where
  size : ℤ := 60
  stride : ℤ := 1
  timeframe : String := "10min"
  interval_seconds : ℤ := 600
deriving DecidableEq, Repr

/-- Mirror of `SlidingWindowExtractor.__init__`: the expected timestamp span of
a continuous window, in milliseconds (lines 75-77). -/
def expectedDiffMs (cfg : WindowConfig) : ℤ :=
  (cfg.size - 1) * cfg.interval_seconds * 1000

/-- Hard-coded continuity tolerance of `extract_windows` (line 122): 1 second
expressed in milliseconds. -/
def toleranceMs : ℤ := 1000

/-- Number of elements of CPython `range(start, stop, step)` for `step ≠ 0`:
`ceil((stop-start)/step)` clamped to zero, computed with floor division as
CPython does. -/
def pyRangeLen (start stop step : ℤ) : ℕ :=
  if 0 < step then ((stop - start + step - 1).fdiv step).toNat
  else ((start - stop + (-step) - 1).fdiv (-step)).toNat

/-- CPython `range(start, stop, step)` materialised as a list; `step = 0`
raises `ValueError`. -/
def pyRange (start stop step : ℤ) : Except PyErr (List ℤ) :=
  if step = 0 then .error .valueError
  else .ok ((List.range (pyRangeLen start stop step)).map (fun k => start + step * k))

/-- Polars `df.slice(offset, length)` on the timestamp column: a negative
offset counts from the end (clamped at 0), and at most `length` rows are
taken. Only nonnegative offsets and lengths are exercised by the theorems
below. -/
def sliceDF (dfs : List ℤ) (offset : ℤ) (len : ℕ) : List ℤ :=
  let off := if offset < 0 then ((dfs.length : ℤ) + offset).toNat else offset.toNat
  (dfs.drop off).take len

/-- Body of one iteration of the loop in `extract_windows` (lines 106-124):
slice a candidate window at index `i`, discard it if its length is not
`cfg.size`, otherwise read the first and last timestamp (raising `IndexError`
on an empty slice, as `window["timestamp"][0]` would) and keep the window only
when its span is within `toleranceMs` of `expectedDiffMs cfg`. -/
def windowAt (cfg : WindowConfig) (dfs : List ℤ) (i : ℤ) :
    Except PyErr (Option (List ℤ)) :=
  let window := sliceDF dfs i cfg.size.toNat
  if (window.length : ℤ) ≠ cfg.size then .ok none
  else
    match window.head?, window.getLast? with
    | some a, some b =>
        if |b - a - expectedDiffMs cfg| ≤ toleranceMs then .ok (some window)
        else .ok none
    | _, _ => .error .indexError

/-- Run `windowAt` over the loop indices in order, collecting the yielded
windows; an interpreter error aborts the iteration. -/
def collectWindows (cfg : WindowConfig) (dfs : List ℤ) :
    List ℤ → Except PyErr (List (List ℤ))
  | [] => .ok []
  | i :: is =>
    match windowAt cfg dfs i with
    | .error e => .error e
    | .ok none => collectWindows cfg dfs is
    | .ok (some w) =>
        match collectWindows cfg dfs is with
        | .error e => .error e
        | .ok ws => .ok (w :: ws)

/-- Mirror of `SlidingWindowExtractor.extract_windows` (lines 79-124), with the
generator fully iterated into a list: return no windows on an empty frame,
sort by timestamp, then slide a window of `cfg.size` by `cfg.stride` over the
loop indices `range(0, len(df) - size + 1, stride)`. -/
def extract_windows (cfg : WindowConfig) (df : List ℤ) :
    Except PyErr (List (List ℤ)) :=
  if df.length = 0 then .ok []
  else
    let dfs := df.insertionSort (· ≤ ·)
    match pyRange 0 ((df.length : ℤ) - cfg.size + 1) cfg.stride with
    | .error e => .error e
    | .ok idxs => collectWindows cfg dfs idxs

/-- Mirror of the dict returned by `SlidingWindowExtractor.get_window_stats`
(lines 168-189). -/
structure WindowStats where
  total_candles : ℤ
  max_possible_windows : ℤ
  window_size : ℤ
  stride : ℤ
deriving DecidableEq, Repr

/-- Mirror of `SlidingWindowExtractor.get_window_stats`: Python `//` is floor
division (`Int.fdiv`), and `max(0, ...)` clamps the estimate. -/
def get_window_stats (cfg : WindowConfig) (df : List ℤ) : WindowStats :=
  { total_candles := (df.length : ℤ)
    max_possible_windows := max 0 (((df.length : ℤ) - cfg.size).fdiv cfg.stride + 1)
    window_size := cfg.size
    stride := cfg.stride }

/-- Mirror of `SlidingWindowExtractor.count_windows` (lines 160-166): the
number of windows the fully iterated generator yields. -/
def count_windows (cfg : WindowConfig) (df : List ℤ) : Except PyErr ℕ :=
  match extract_windows cfg df with
  | .error e => .error e
  | .ok ws => .ok ws.length

/-! ### Vector embedder (`embedding.py`): NaN-sensitive raw-vector view -/

/-- Scalar of a raw numpy vector: a finite rational payload or one of the IEEE
non-finite values. -/
inductive FVal where
  | nan
  | inf
  | ninf
  | num (q : ℚ)
deriving DecidableEq, Repr

/-- Numpy `np.isnan` on one scalar: true exactly on NaN (infinities are not
NaN). -/
def isNanF : FVal → Bool
  | .nan => true
  | _ => false

/-- Predicate for an infinite (non-NaN, non-finite) scalar, matching
`np.isinf`. -/
def isInfF : FVal → Bool
  | .inf => true
  | .ninf => true
  | _ => false

/-- Fitted sklearn `PCA` object as the embedder observes it: its component
count, the sum of its explained-variance ratios, and its (opaque, externally
computed) `transform` map. -/
structure PCAModel where
  n_components : ℕ
  explainedVarianceSum : ℚ
  transform : List FVal → List FVal

/-- Shape of the numpy training matrix passed to `train_pca`; the entries are
irrelevant to every claim (the fitted model is opaque), so only the shape is
kept. -/
structure TrainingMatrix where
  n_samples : ℕ
  n_features : ℕ
deriving DecidableEq, Repr

/-- Statistics dict returned by `train_pca` (embedding.py lines 93-97). -/
structure TrainStats where
  n_components : ℕ
  explained_variance : ℚ
  n_samples : ℕ
deriving DecidableEq, Repr

/-- Error conditions raised by the embedder methods: `ValueError` for a raw
vector of the wrong width, for NaN contents, for an untrained model at embed
time, and from sklearn `PCA.fit` when the sample count cannot support the
requested component count; `FileNotFoundError` from `load_pca_model`. -/
inductive EmbedError where
  | dimensionMismatch
  | nanValues
  | modelNotTrained
  | pcaFitInvalid
  | fileNotFound
deriving DecidableEq, Repr

/-- Entry of the in-memory store `self.vectors`: the (normalized) vector with
its metadata, in insertion order. Arithmetic on stored vectors is modelled
over `ℝ`. -/
structure StoredEntry where
  vec : List ℝ
  stock_code : String
  timestamp : ℤ
  window_size : ℤ

/-- State of a `VectorEmbedder` instance (embedding.py lines 49-63). -/
structure VectorEmbedder where
  use_pca : Bool := true
  n_components : ℕ := 64
  pca_model : Option PCAModel := none
  vectors : List StoredEntry := []

/-- Class constant `VectorEmbedder.RAW_DIM`. -/
def RAW_DIM : ℕ := 600

/-- Class constant `VectorEmbedder.REDUCED_DIM`. -/
def REDUCED_DIM : ℕ := 64

/-- Modelled from the spec: the body of sklearn's `PCA.fit` is external
library code absent from `src/`; per the spec, training "requires
`n_samples ≥ D_reduced` for a well-posed solution; fewer samples is a fatal
configuration error", matching sklearn's documented validation that
`n_components` may not exceed `min(n_samples, n_features)`. The fitted model
itself is opaque and supplied as `fitted`. -/
def pcaFit (n_components : ℕ) (X : TrainingMatrix) (fitted : PCAModel) :
    Except EmbedError PCAModel :=
  if n_components ≤ min X.n_samples X.n_features then .ok fitted
  else .error .pcaFitInvalid

/-- Mirror of `VectorEmbedder.train_pca` (lines 65-97): reject a training
matrix whose row width is not `RAW_DIM`, fit the PCA model, store it on the
instance and return the statistics dict. -/
def train_pca (s : VectorEmbedder) (X : TrainingMatrix) (fitted : PCAModel) :
    Except EmbedError (VectorEmbedder × TrainStats) :=
  if X.n_features ≠ RAW_DIM then .error .dimensionMismatch
  else
    match pcaFit s.n_components X fitted with
    | .error e => .error e
    | .ok m =>
        .ok ({ s with pca_model := some m },
             { n_components := s.n_components
               explained_variance := m.explainedVarianceSum
               n_samples := X.n_samples })

/-- Mirror of `VectorEmbedder.load_pca_model` (lines 110-120): a missing file
is `FileNotFoundError`; on success the unpickled model is installed and
`use_pca` is unconditionally set to `True`. -/
def load_pca_model (s : VectorEmbedder) (source : Option PCAModel) :
    Except EmbedError VectorEmbedder :=
  match source with
  | none => .error .fileNotFound
  | some m => .ok { s with pca_model := some m, use_pca := true }

/-- Mirror of `VectorEmbedder.get_vector_dimension` (lines 239-244). -/
def get_vector_dimension (s : VectorEmbedder) : ℕ :=
  if s.use_pca then s.n_components else RAW_DIM

/-- Mirror of `VectorEmbedder.embed_vector` (lines 122-154): reject a vector
whose length is not `RAW_DIM`, then reject NaN contents (`np.isnan`; note the
code performs no infinity check), then apply the PCA transform when enabled
(failing if no model is present), else pass the raw vector through. -/
def embed_vector (s : VectorEmbedder) (raw : List FVal) :
    Except EmbedError (List FVal) :=
  if raw.length ≠ RAW_DIM then .error .dimensionMismatch
  else if raw.any isNanF then .error .nanValues
  else if s.use_pca then
    match s.pca_model with
    | none => .error .modelNotTrained
    | some m => .ok (m.transform raw)
  else .ok raw

/-! ### Vector embedder: normalization, insertion and search over `ℝ` -/

/-- Sum of squares of a real vector. -/
def sumSq : List ℝ → ℝ
  | [] => 0
  | x :: xs => x * x + sumSq xs

/-- Numpy `np.linalg.norm`: the Euclidean norm. -/
noncomputable def normR (v : List ℝ) : ℝ := Real.sqrt (sumSq v)

/-- Normalization step shared by `insert_vector` (lines 172-175) and
`search_similar` (lines 203-206): divide by the Euclidean norm when it is
positive, otherwise leave the vector (in particular the zero vector)
unchanged. -/
noncomputable def normalizeVec (v : List ℝ) : List ℝ :=
  if 0 < normR v then v.map (fun x => x / normR v) else v

/-- Mirror of `VectorEmbedder.insert_vector` (lines 156-177): normalize and
append one entry; nothing is deduplicated or overwritten. -/
noncomputable def insert_vector (s : VectorEmbedder) (v : List ℝ)
    (stock_code : String) (timestamp : ℤ) (window_size : ℤ) : VectorEmbedder :=
  { s with vectors :=
      s.vectors ++ [{ vec := normalizeVec v, stock_code := stock_code,
                      timestamp := timestamp, window_size := window_size }] }

/-- Numpy `np.dot` on two equal-length 1-D arrays (the only shapes the class
produces). -/
def dotR : List ℝ → List ℝ → ℝ
  | x :: xs, y :: ys => x * y + dotR xs ys
  | _, _ => 0

/-- Mirror of the dataclass `VectorMetadata` (embedding.py lines 17-28). -/
structure VectorMetadata where
  stock_code : String
  timestamp : ℤ
  window_size : ℤ
  similarity : ℝ

/-- Filtering loop of `search_similar` (lines 208-223): walk the store in
insertion order, compute the dot product of the normalized query with each
stored vector, and keep a metadata record exactly when the similarity reaches
`min_similarity`. -/
noncomputable def candidates (s : VectorEmbedder) (q : List ℝ)
    (min_similarity : ℝ) : List VectorMetadata :=
  s.vectors.filterMap (fun e =>
    if min_similarity ≤ dotR (normalizeVec q) e.vec then
      some { stock_code := e.stock_code, timestamp := e.timestamp,
             window_size := e.window_size,
             similarity := dotR (normalizeVec q) e.vec }
    else none)

/-- Ordering used by `similarities.sort(key=lambda x: x.similarity,
reverse=True)`: `a` may precede `b` exactly when `a` has the larger-or-equal
similarity. -/
def simOrder (a b : VectorMetadata) : Prop := b.similarity ≤ a.similarity

noncomputable instance : DecidableRel simOrder :=
  fun a b => Real.decidableLE b.similarity a.similarity

instance : IsTotal VectorMetadata simOrder :=
  ⟨fun a b => le_total b.similarity a.similarity⟩

instance : IsTrans VectorMetadata simOrder :=
  ⟨fun _ _ _ h1 h2 => le_trans h2 h1⟩

/-- Mirror of `VectorEmbedder.search_similar` (lines 179-229): empty store
short-circuits to `[]`; otherwise filter by threshold, sort descending by
similarity with CPython's stable sort (modelled by the stable
`List.insertionSort`, which produces the same ordering as any stable sort on
the same key), and truncate to the first `top_k` results. -/
noncomputable def search_similar (s : VectorEmbedder) (q : List ℝ)
    (top_k : ℕ) (min_similarity : ℝ) : List VectorMetadata :=
  if s.vectors.length = 0 then []
  else ((candidates s q min_similarity).insertionSort simOrder).take top_k

/-- Subsequence of a result list whose similarity equals `c`; used to state
that the sort is stable (each equal-similarity class keeps its original,
i.e. insertion, order). -/
noncomputable def keepSim (c : ℝ) : List VectorMetadata → List VectorMetadata
  | [] => []
  | m :: ms => if m.similarity = c then m :: keepSim c ms else keepSim c ms

/-! ### Helper lemmas about the extractor -/

theorem fdiv_toNat_eq_zero {a b : ℤ} (hb : 0 < b) (hab : a < b) :
    (a.fdiv b).toNat = 0 := by
  rw [Int.fdiv_eq_ediv _ (le_of_lt hb)]
  rcases lt_or_le a 0 with h | h
  · exact Int.toNat_of_nonpos (le_of_lt (Int.ediv_neg' h hb))
  · rw [Int.ediv_eq_zero_of_lt h hab]
    rfl

theorem windowAt_ok_some {cfg : WindowConfig} {dfs : List ℤ} {i : ℤ}
    {w : List ℤ} (h : windowAt cfg dfs i = .ok (some w)) :
    (w.length : ℤ) = cfg.size ∧
      ∃ a b, w.head? = some a ∧ w.getLast? = some b ∧
        |b - a - expectedDiffMs cfg| ≤ toleranceMs := by
  simp only [windowAt] at h
  split at h
  · simp at h
  next hlen =>
    split at h
    next a b hh hl =>
      split at h
      next hcont =>
        have hw : sliceDF dfs i cfg.size.toNat = w := by
          injection h with h1
          injection h1
        subst hw
        refine ⟨by omega, a, b, hh, hl, hcont⟩
      next => simp at h
    next => simp at h

theorem windowAt_ne_error (cfg : WindowConfig) (dfs : List ℤ) (i : ℤ)
    (hsz : 1 ≤ cfg.size) : ∃ r, windowAt cfg dfs i = .ok r := by
  simp only [windowAt]
  split
  · exact ⟨none, rfl⟩
  next hlen =>
    have hne : sliceDF dfs i cfg.size.toNat ≠ [] := by
      intro hnil
      rw [hnil] at hlen
      simp at hlen
      omega
    obtain ⟨a, hh⟩ := Option.isSome_iff_exists.mp (List.head?_isSome.mpr hne)
    obtain ⟨b, hl⟩ := Option.isSome_iff_exists.mp (List.getLast?_isSome.mpr hne)
    rw [hh, hl]
    by_cases hc : |b - a - expectedDiffMs cfg| ≤ toleranceMs
    · exact ⟨some (sliceDF dfs i cfg.size.toNat), by simp [hc]⟩
    · exact ⟨none, by simp [hc]⟩

theorem collectWindows_mem {cfg : WindowConfig} {dfs : List ℤ} :
    ∀ {idxs : List ℤ} {ws : List (List ℤ)} {w : List ℤ},
      collectWindows cfg dfs idxs = .ok ws → w ∈ ws →
      ∃ i ∈ idxs, windowAt cfg dfs i = .ok (some w)
  | [], ws, w, h, hw => by
    simp only [collectWindows] at h
    injection h with h
    subst h
    cases hw
  | i :: is, ws, w, h, hw => by
    simp only [collectWindows] at h
    split at h
    · exact absurd h (by simp)
    next hwa =>
      obtain ⟨j, hj, hjw⟩ := collectWindows_mem h hw
      exact ⟨j, List.mem_cons_of_mem _ hj, hjw⟩
    next v hwa =>
      split at h
      · exact absurd h (by simp)
      next ws' hrec =>
        injection h with h
        subst h
        rcases List.mem_cons.mp hw with rfl | hw'
        · exact ⟨i, List.mem_cons_self _ _, hwa⟩
        · obtain ⟨j, hj, hjw⟩ := collectWindows_mem hrec hw'
          exact ⟨j, List.mem_cons_of_mem _ hj, hjw⟩

theorem collectWindows_ok (cfg : WindowConfig) (dfs : List ℤ)
    (hsz : 1 ≤ cfg.size) :
    ∀ idxs : List ℤ, ∃ ws, collectWindows cfg dfs idxs = .ok ws
  | [] => ⟨[], rfl⟩
  | i :: is => by
    obtain ⟨r, hr⟩ := windowAt_ne_error cfg dfs i hsz
    obtain ⟨ws, hws⟩ := collectWindows_ok cfg dfs hsz is
    cases r with
    | none => exact ⟨ws, by simp only [collectWindows, hr, hws]⟩
    | some v => exact ⟨v :: ws, by simp only [collectWindows, hr, hws]⟩

/-- C1: for every input series and configuration, every window yielded by
`extract_windows` has length exactly `config.size` (the explicit size guard in
the loop makes this hold for all configurations, in particular all valid
ones). -/
theorem extract_windows_size (cfg : WindowConfig) (df : List ℤ)
    (ws : List (List ℤ)) (hok : extract_windows cfg df = .ok ws) :
    ∀ w ∈ ws, (w.length : ℤ) = cfg.size := by
  intro w hw
  simp only [extract_windows] at hok
  split at hok
  · injection hok with h
    subst h
    cases hw
  · split at hok
    · exact absurd hok (by simp)
    · obtain ⟨i, _, hws⟩ := collectWindows_mem hok hw
      exact (windowAt_ok_some hws).1

theorem extract_windows_size_witness :
    extract_windows ⟨2, 1, "10min", 600⟩ [0, 600000, 1300000] =
        .ok [[0, 600000]] ∧
      (([0, 600000] : List ℤ).length : ℤ) =
        (⟨2, 1, "10min", 600⟩ : WindowConfig).size :=
  ⟨by rfl,
   extract_windows_size ⟨2, 1, "10min", 600⟩ [0, 600000, 1300000]
     [[0, 600000]] (by rfl) [0, 600000] (by simp)⟩

/-- C2: every window yielded by `extract_windows` has its timestamp span
within the continuity tolerance of `(size - 1) * interval` milliseconds, and
for a valid configuration a discontinuous candidate slice is silently skipped
rather than raised: extraction always completes without an exception. -/
theorem extract_windows_continuity (cfg : WindowConfig) (df : List ℤ) :
    (∀ ws, extract_windows cfg df = .ok ws → ∀ w ∈ ws,
        ∃ a b, w.head? = some a ∧ w.getLast? = some b ∧
          |b - a - expectedDiffMs cfg| ≤ toleranceMs) ∧
    (1 ≤ cfg.size → 1 ≤ cfg.stride → ∃ ws, extract_windows cfg df = .ok ws) := by
  constructor
  · intro ws hok w hw
    simp only [extract_windows] at hok
    split at hok
    · injection hok with h
      subst h
      cases hw
    · split at hok
      · exact absurd hok (by simp)
      · obtain ⟨i, _, hws⟩ := collectWindows_mem hok hw
        exact (windowAt_ok_some hws).2
  · intro hsz hstr
    simp only [extract_windows]
    split
    · exact ⟨[], rfl⟩
    · have h0 : cfg.stride ≠ 0 := by omega
      simp only [pyRange, h0, if_false]
      exact collectWindows_ok _ _ hsz _

theorem extract_windows_continuity_witness :
    (∃ a b, ([0, 600000] : List ℤ).head? = some a ∧
        ([0, 600000] : List ℤ).getLast? = some b ∧
        |b - a - expectedDiffMs ⟨2, 1, "10min", 600⟩| ≤ toleranceMs) ∧
      ∃ ws, extract_windows ⟨2, 1, "10min", 600⟩ [0, 600000, 1300000] = .ok ws :=
  ⟨(extract_windows_continuity ⟨2, 1, "10min", 600⟩ [0, 600000, 1300000]).1
      [[0, 600000]] (by rfl) [0, 600000] (by simp),
   (extract_windows_continuity ⟨2, 1, "10min", 600⟩ [0, 600000, 1300000]).2
      (by decide) (by decide)⟩

/-- C8: a series shorter than `config.size` yields zero windows, and
`get_window_stats` reports `max_possible_windows = 0` (for any positive
stride). -/
theorem short_series_spec (cfg : WindowConfig) (df : List ℤ)
    (hshort : (df.length : ℤ) < cfg.size) (hstride : 1 ≤ cfg.stride) :
    extract_windows cfg df = .ok [] ∧
      (get_window_stats cfg df).max_possible_windows = 0 := by
  constructor
  · simp only [extract_windows]
    split
    · rfl
    · have h0 : cfg.stride ≠ 0 := by omega
      simp only [pyRange, h0, if_false]
      have hlen0 : pyRangeLen 0 ((df.length : ℤ) - cfg.size + 1) cfg.stride = 0 := by
        have hpos : (0 : ℤ) < cfg.stride := by omega
        simp only [pyRangeLen, if_pos hpos]
        exact fdiv_toNat_eq_zero (by omega) (by omega)
      rw [hlen0]
      rfl
  · simp only [get_window_stats]
    rw [Int.fdiv_eq_ediv _ (by omega : (0 : ℤ) ≤ cfg.stride)]
    have h2 : ((df.length : ℤ) - cfg.size) / cfg.stride < 0 :=
      Int.ediv_neg' (by omega) (by omega)
    exact max_eq_left (by omega)

theorem short_series_spec_witness :
    ((([0, 600000] : List ℤ).length : ℤ) <
        (⟨60, 1, "10min", 600⟩ : WindowConfig).size ∧ (1 : ℤ) ≤ 1) ∧
      extract_windows ⟨60, 1, "10min", 600⟩ [0, 600000] = .ok [] ∧
        (get_window_stats ⟨60, 1, "10min", 600⟩ [0, 600000]).max_possible_windows = 0 :=
  ⟨⟨by decide, by decide⟩,
   short_series_spec ⟨60, 1, "10min", 600⟩ [0, 600000] (by decide) (by decide)⟩

/-- C6 counterexample: a configuration with `stride = -1 < 1` is accepted
without any error — extraction on a 100-point continuous series completes
normally, silently producing no windows, instead of failing fast with a
configuration error. -/
theorem invalid_stride_accepted :
    (WindowConfig.mk 60 (-1) "10min" 600).stride < 1 ∧
      extract_windows (WindowConfig.mk 60 (-1) "10min" 600)
        ((List.range 100).map (fun k => 600000 * (k : ℤ))) = .ok [] := by
  constructor
  · decide
  · rfl

/-- C6 amended: `WindowConfig` and the extractor perform no validation of
`size` or `stride`. A negative stride makes `extract_windows` silently yield
no windows (whenever `size ≤ len(series) + 1`), and a zero stride raises a
`ValueError` from `range` only once the generator is iterated on a nonempty
series; no configuration error is reported at construction. -/
theorem invalid_stride_behavior (cfg : WindowConfig) (df : List ℤ) :
    (cfg.stride < 0 → cfg.size ≤ (df.length : ℤ) + 1 →
        extract_windows cfg df = .ok []) ∧
      (cfg.stride = 0 → df.length ≠ 0 →
        extract_windows cfg df = .error .valueError) := by
  constructor
  · intro hneg hsz
    simp only [extract_windows]
    split
    · rfl
    · have h0 : cfg.stride ≠ 0 := by omega
      simp only [pyRange, h0, if_false]
      have hlen0 : pyRangeLen 0 ((df.length : ℤ) - cfg.size + 1) cfg.stride = 0 := by
        have hnpos : ¬ (0 : ℤ) < cfg.stride := by omega
        simp only [pyRangeLen, if_neg hnpos]
        exact fdiv_toNat_eq_zero (by omega) (by omega)
      rw [hlen0]
      rfl
  · intro h0 hne
    simp only [extract_windows]
    split
    next h => exact absurd h hne
    next h => simp [pyRange, h0]

theorem invalid_stride_behavior_witness :
    ((⟨3, -2, "10min", 600⟩ : WindowConfig).stride < 0 ∧
        (⟨3, -2, "10min", 600⟩ : WindowConfig).size ≤ (([0, 1, 2] : List ℤ).length : ℤ) + 1 ∧
        extract_windows ⟨3, -2, "10min", 600⟩ [0, 1, 2] = .ok []) ∧
      ((⟨3, 0, "10min", 600⟩ : WindowConfig).stride = 0 ∧
        ([0, 1, 2] : List ℤ).length ≠ 0 ∧
        extract_windows ⟨3, 0, "10min", 600⟩ [0, 1, 2] = .error .valueError) :=
  ⟨⟨by decide, by decide,
    (invalid_stride_behavior ⟨3, -2, "10min", 600⟩ [0, 1, 2]).1 (by decide) (by decide)⟩,
   ⟨by decide, by decide,
    (invalid_stride_behavior ⟨3, 0, "10min", 600⟩ [0, 1, 2]).2 (by decide) (by decide)⟩⟩

/-! ### Embedder theorems: training, loading, embedding -/

/-- C7: `train_pca` fails whenever the number of sample rows is smaller than
the configured component count `D_reduced` (the validation performed by the
external sklearn `PCA.fit`, modelled in `pcaFit`), and on success installs the
fitted model — the `Trained` state — and returns the component count, the
explained-variance-ratio sum and the sample count. -/
theorem train_pca_spec (s : VectorEmbedder) (X : TrainingMatrix)
    (fitted : PCAModel) :
    (X.n_samples < s.n_components → ∃ e, train_pca s X fitted = .error e) ∧
      (X.n_features = RAW_DIM → s.n_components ≤ X.n_samples →
        s.n_components ≤ RAW_DIM →
        train_pca s X fitted =
          .ok ({ s with pca_model := some fitted },
               { n_components := s.n_components
                 explained_variance := fitted.explainedVarianceSum
                 n_samples := X.n_samples })) := by
  constructor
  · intro hlt
    by_cases hf : X.n_features = RAW_DIM
    · have hmin : ¬ s.n_components ≤ min X.n_samples X.n_features := by
        have h1 := min_le_left X.n_samples X.n_features
        omega
      refine ⟨.pcaFitInvalid, ?_⟩
      simp only [train_pca, pcaFit]
      rw [if_neg (not_not_intro hf), if_neg hmin]
    · exact ⟨.dimensionMismatch,
        by simp only [train_pca]; rw [if_pos hf]⟩
  · intro hf hle hle6
    have hmin : s.n_components ≤ min X.n_samples X.n_features := by
      rw [hf]
      omega
    simp only [train_pca, pcaFit]
    rw [if_neg (not_not_intro hf), if_pos hmin]

theorem train_pca_spec_witness :
    ((⟨10, 600⟩ : TrainingMatrix).n_samples <
        (⟨true, 64, none, []⟩ : VectorEmbedder).n_components ∧
      ∃ e, train_pca ⟨true, 64, none, []⟩ ⟨10, 600⟩
        ⟨64, 0, fun v => v⟩ = .error e) ∧
    ((⟨100, 600⟩ : TrainingMatrix).n_features = RAW_DIM ∧
      train_pca ⟨true, 64, none, []⟩ ⟨100, 600⟩ ⟨64, 0, fun v => v⟩ =
        .ok (⟨true, 64, some ⟨64, 0, fun v => v⟩, []⟩, ⟨64, 0, 100⟩)) :=
  ⟨⟨by decide,
    (train_pca_spec ⟨true, 64, none, []⟩ ⟨10, 600⟩ ⟨64, 0, fun v => v⟩).1
      (by decide)⟩,
   ⟨by decide,
    (train_pca_spec ⟨true, 64, none, []⟩ ⟨100, 600⟩ ⟨64, 0, fun v => v⟩).2
      (by decide) (by decide) (by decide)⟩⟩

/-- C10: any successful `load_pca_model` forces `use_pca := True`, so an
embedder constructed with `use_pca = False` is silently switched into
projection mode: `get_vector_dimension` then reports `n_components` (instead
of `RAW_DIM` before the load), and `embed_vector` applies the loaded transform
(instead of passing the raw vector through). -/
theorem load_pca_model_spec (s : VectorEmbedder) (m : PCAModel)
    (s' : VectorEmbedder) (h : load_pca_model s (some m) = .ok s') :
    s'.use_pca = true ∧ s'.pca_model = some m ∧
      get_vector_dimension s' = s'.n_components ∧
      (s.use_pca = false → get_vector_dimension s = RAW_DIM) ∧
      (∀ raw, raw.length = RAW_DIM → raw.any isNanF = false →
        embed_vector s' raw = .ok (m.transform raw) ∧
          (s.use_pca = false → embed_vector s raw = .ok raw)) := by
  simp only [load_pca_model] at h
  injection h with h
  subst h
  refine ⟨rfl, rfl, rfl, ?_, ?_⟩
  · intro hup
    simp [get_vector_dimension, hup]
  · intro raw hlen hnan
    constructor
    · simp [embed_vector, hlen, hnan]
    · intro hup
      simp [embed_vector, hlen, hnan, hup]

theorem load_pca_model_spec_witness :
    load_pca_model ⟨false, 64, none, []⟩ (some ⟨64, 1, fun v => v⟩) =
        .ok ⟨true, 64, some ⟨64, 1, fun v => v⟩, []⟩ ∧
      (⟨true, 64, some ⟨64, 1, fun v => v⟩, []⟩ : VectorEmbedder).use_pca = true ∧
      get_vector_dimension ⟨true, 64, some ⟨64, 1, fun v => v⟩, []⟩ = 64 ∧
      get_vector_dimension ⟨false, 64, none, []⟩ = RAW_DIM :=
  ⟨rfl,
   (load_pca_model_spec ⟨false, 64, none, []⟩ ⟨64, 1, fun v => v⟩
      ⟨true, 64, some ⟨64, 1, fun v => v⟩, []⟩ rfl).1,
   (load_pca_model_spec ⟨false, 64, none, []⟩ ⟨64, 1, fun v => v⟩
      ⟨true, 64, some ⟨64, 1, fun v => v⟩, []⟩ rfl).2.2.1,
   (load_pca_model_spec ⟨false, 64, none, []⟩ ⟨64, 1, fun v => v⟩
      ⟨true, 64, some ⟨64, 1, fun v => v⟩, []⟩ rfl).2.2.2.1 rfl⟩

set_option maxRecDepth 10000 in
/-- C4 counterexample: a raw vector of the correct length `RAW_DIM` made
entirely of `+inf` — containing infinite values but no NaN — is not rejected
by `embed_vector`: with projection disabled it is returned unchanged instead
of raising a data-quality error, because the code checks `np.isnan` only and
never `np.isinf`. -/
theorem embed_vector_inf_not_rejected :
    (List.replicate 600 FVal.inf).any isInfF = true ∧
      embed_vector ⟨false, 64, none, []⟩ (List.replicate 600 FVal.inf) =
        .ok (List.replicate 600 FVal.inf) := by
  constructor
  · rfl
  · rfl

/-- C4 amended: `embed_vector` raises the data-quality error exactly for NaN
contents: every correct-length raw vector containing a NaN is rejected with
the NaN error, while a vector free of NaN — even one containing infinities —
is never rejected with it. -/
theorem embed_vector_nan_spec (s : VectorEmbedder) (raw : List FVal) :
    (raw.length = RAW_DIM → raw.any isNanF = true →
        embed_vector s raw = .error .nanValues) ∧
      (raw.any isNanF = false → embed_vector s raw ≠ .error .nanValues) := by
  constructor
  · intro hlen hnan
    simp [embed_vector, hlen, hnan]
  · intro hnan
    simp only [embed_vector, hnan]
    split
    · simp
    · simp only [Bool.false_eq_true, if_false]
      split
      · split
        · simp
        · simp
      · simp

set_option maxRecDepth 10000 in
theorem embed_vector_nan_spec_witness :
    (List.replicate 599 (FVal.num 0) ++ [FVal.nan]).length = RAW_DIM ∧
      (List.replicate 599 (FVal.num 0) ++ [FVal.nan]).any isNanF = true ∧
      embed_vector ⟨true, 64, none, []⟩
          (List.replicate 599 (FVal.num 0) ++ [FVal.nan]) =
        .error .nanValues :=
  ⟨by simp [RAW_DIM, List.length_append, List.length_replicate],
   by simp [List.any_append, isNanF],
   (embed_vector_nan_spec ⟨true, 64, none, []⟩
      (List.replicate 599 (FVal.num 0) ++ [FVal.nan])).1
     (by simp [RAW_DIM, List.length_append, List.length_replicate])
     (by simp [List.any_append, isNanF])⟩

/-! ### Insertion and normalization over `ℝ` -/

theorem sumSq_nonneg (v : List ℝ) : 0 ≤ sumSq v := by
  induction v with
  | nil => exact le_refl 0
  | cons x xs ih => exact add_nonneg (mul_self_nonneg x) ih

theorem sumSq_map_div (v : List ℝ) (c : ℝ) (hc : c ≠ 0) :
    sumSq (v.map (fun x => x / c)) = sumSq v / (c * c) := by
  induction v with
  | nil => simp [sumSq]
  | cons x xs ih =>
    simp only [List.map_cons, sumSq, ih]
    field_simp

theorem normR_normalizeVec (v : List ℝ) (h : 0 < normR v) :
    normR (normalizeVec v) = 1 := by
  have hS : 0 < sumSq v := by
    by_contra hle
    push_neg at hle
    have h0 : sumSq v = 0 := le_antisymm hle (sumSq_nonneg v)
    rw [normR, h0, Real.sqrt_zero] at h
    exact lt_irrefl 0 h
  have hc : normR v ≠ 0 := ne_of_gt h
  rw [normalizeVec, if_pos h, normR, sumSq_map_div v (normR v) hc]
  have hmul : normR v * normR v = sumSq v := by
    rw [normR]
    exact Real.mul_self_sqrt (le_of_lt hS)
  rw [hmul, div_self (ne_of_gt hS), Real.sqrt_one]

/-- C5: `insert_vector` appends exactly one entry carrying the given entity
id, timestamp and window size, regardless of existing contents (no
deduplication); the stored vector is the input scaled to unit norm when the
Euclidean norm is positive, and is the input unchanged (in particular the
zero vector) when the norm is zero. -/
theorem insert_vector_spec (s : VectorEmbedder) (v : List ℝ) (c : String)
    (t w : ℤ) :
    (insert_vector s v c t w).vectors =
        s.vectors ++ [{ vec := normalizeVec v, stock_code := c,
                        timestamp := t, window_size := w }] ∧
      (insert_vector s v c t w).vectors.length = s.vectors.length + 1 ∧
      (0 < normR v → normalizeVec v = v.map (fun x => x / normR v) ∧
        normR (normalizeVec v) = 1) ∧
      (normR v = 0 → normalizeVec v = v) := by
  refine ⟨rfl, by simp [insert_vector], ?_, ?_⟩
  · intro h
    exact ⟨by rw [normalizeVec, if_pos h], normR_normalizeVec v h⟩
  · intro h0
    rw [normalizeVec, if_neg (by simp [h0])]

theorem insert_vector_spec_witness :
    0 < normR [(3 : ℝ), 4] ∧ normR (normalizeVec [(3 : ℝ), 4]) = 1 ∧
      (insert_vector ⟨true, 64, none, []⟩ [(3 : ℝ), 4] "005930" 0 60).vectors.length =
        ([] : List StoredEntry).length + 1 := by
  have hpos : 0 < normR [(3 : ℝ), 4] := by
    rw [normR]
    apply Real.sqrt_pos.mpr
    norm_num [sumSq]
  exact ⟨hpos,
    ((insert_vector_spec ⟨true, 64, none, []⟩ [(3 : ℝ), 4] "005930" 0 60).2.2.1 hpos).2,
    (insert_vector_spec ⟨true, 64, none, []⟩ [(3 : ℝ), 4] "005930" 0 60).2.1⟩

/-! ### Similarity search: stability, ordering and threshold lemmas -/

theorem keepSim_orderedInsert_ne (c : ℝ) (x : VectorMetadata)
    (l : List VectorMetadata) (hx : x.similarity ≠ c) :
    keepSim c (l.orderedInsert simOrder x) = keepSim c l := by
  induction l with
  | nil => simp [keepSim, hx]
  | cons b bs ih =>
    rw [List.orderedInsert]
    split
    · simp [keepSim, hx]
    · simp only [keepSim, ih]

theorem keepSim_orderedInsert_eq (c : ℝ) (x : VectorMetadata)
    (l : List VectorMetadata) (hx : x.similarity = c) :
    keepSim c (l.orderedInsert simOrder x) = x :: keepSim c l := by
  induction l with
  | nil => simp [keepSim, hx]
  | cons b bs ih =>
    rw [List.orderedInsert]
    split
    next hle => simp [keepSim, hx]
    next hgt =>
      have hbne : b.similarity ≠ c := by
        intro hbc
        exact hgt (le_of_eq (hbc.trans hx.symm))
      simp only [keepSim, ih, if_neg hbne]

theorem keepSim_insertionSort (c : ℝ) (l : List VectorMetadata) :
    keepSim c (l.insertionSort simOrder) = keepSim c l := by
  induction l with
  | nil => rfl
  | cons x xs ih =>
    rw [List.insertionSort]
    by_cases hx : x.similarity = c
    · rw [keepSim_orderedInsert_eq c x _ hx, ih]
      simp [keepSim, hx]
    · rw [keepSim_orderedInsert_ne c x _ hx, ih]
      simp [keepSim, hx]

theorem candidates_sim_ge (s : VectorEmbedder) (q : List ℝ) (t : ℝ) :
    ∀ m ∈ candidates s q t, t ≤ m.similarity := by
  intro m hm
  simp only [candidates, List.mem_filterMap] at hm
  obtain ⟨e, _, hme⟩ := hm
  split at hme
  next hge =>
    injection hme with hme
    subst hme
    exact hge
  next => exact absurd hme (by simp)

/-- C3: `search_similar` is threshold-filter, stable descending sort,
truncation: it equals the first `top_k` elements of the sorted candidate
list; at most `top_k` and exactly `min top_k (number of entries reaching the
threshold)` results are returned; every result reaches the threshold; results
are sorted descending by similarity; the sort permutes the candidates and is
stable, i.e. each equal-similarity class stays in candidate order, which is
insertion order because the filter preserves the order of the store. -/
theorem search_similar_spec (s : VectorEmbedder) (q : List ℝ) (k : ℕ)
    (t : ℝ) :
    search_similar s q k t =
        ((candidates s q t).insertionSort simOrder).take k ∧
      (search_similar s q k t).length ≤ k ∧
      (search_similar s q k t).length = min k (candidates s q t).length ∧
      List.Forall (fun m => t ≤ m.similarity) (search_similar s q k t) ∧
      List.Sorted simOrder (search_similar s q k t) ∧
      ((candidates s q t).insertionSort simOrder).Perm (candidates s q t) ∧
      (∀ c : ℝ, keepSim c ((candidates s q t).insertionSort simOrder) =
        keepSim c (candidates s q t)) := by
  have heq : search_similar s q k t =
      ((candidates s q t).insertionSort simOrder).take k := by
    rw [search_similar]
    split
    next h0 =>
      have hnil : s.vectors = [] := List.length_eq_zero.mp h0
      simp [candidates, hnil]
    next => rfl
  refine ⟨heq, ?_, ?_, ?_, ?_, List.perm_insertionSort simOrder _,
    fun c => keepSim_insertionSort c (candidates s q t)⟩
  · rw [heq, List.length_take, List.length_insertionSort]
    exact min_le_left _ _
  · rw [heq, List.length_take, List.length_insertionSort]
  · rw [List.forall_iff_forall_mem]
    intro m hm
    rw [heq] at hm
    have hm2 : m ∈ (candidates s q t).insertionSort simOrder :=
      (List.take_sublist _ _).subset hm
    exact candidates_sim_ge s q t m ((List.mem_insertionSort simOrder).mp hm2)
  · rw [heq]
    exact (List.sorted_insertionSort simOrder (candidates s q t)).sublist
      (List.take_sublist _ _)

/-- C9: for a fixed query, stored set and `top_k`, raising `min_similarity`
never increases the number of results returned by `search_similar`. -/
theorem search_similar_threshold_mono (s : VectorEmbedder) (q : List ℝ)
    (k : ℕ) (t1 t2 : ℝ) (h : t1 ≤ t2) :
    (search_similar s q k t2).length ≤ (search_similar s q k t1).length := by
  have hcand : (candidates s q t2).length ≤ (candidates s q t1).length := by
    simp only [candidates]
    induction s.vectors with
    | nil => simp
    | cons e es ih =>
      simp only [List.filterMap_cons]
      by_cases h2 : t2 ≤ dotR (normalizeVec q) e.vec
      · have h1 : t1 ≤ dotR (normalizeVec q) e.vec := le_trans h h2
        simp only [if_pos h2, if_pos h1, List.length_cons]
        exact Nat.succ_le_succ ih
      · by_cases h1 : t1 ≤ dotR (normalizeVec q) e.vec
        · simp only [if_neg h2, if_pos h1, List.length_cons]
          exact le_trans ih (Nat.le_succ _)
        · simp only [if_neg h2, if_neg h1]
          exact ih
  by_cases h0 : s.vectors.length = 0
  · simp [search_similar, h0]
  · simp only [search_similar, h0, if_false]
    rw [List.length_take, List.length_take, List.length_insertionSort,
      List.length_insertionSort]
    exact min_le_min (le_refl k) hcand

theorem search_similar_threshold_mono_witness :
    (0 : ℝ) ≤ 1 ∧
      (search_similar ⟨true, 64, none, [⟨[1], "005930", 0, 60⟩]⟩ [1] 5 1).length ≤
        (search_similar ⟨true, 64, none, [⟨[1], "005930", 0, 60⟩]⟩ [1] 5 0).length :=
  ⟨by norm_num,
   search_similar_threshold_mono ⟨true, 64, none, [⟨[1], "005930", 0, 60⟩]⟩
     [1] 5 0 1 (by norm_num)⟩
